import Mathlib

/-!
Verification of the Traditional_Rag pipeline: a shallow embedding of the
text chunker, the Weaviate vector-store client (collection provisioning
with retry, document insertion, nearest-neighbour search) and the RAG
pipeline orchestrator (ingest, retrieve, query), with proofs of the
specified properties.
-/

namespace TraditionalRag

/-! ### Chunker (src/document_processing/chunker.py)

`chunk_text` splits a string into overlapping windows.  The Python `while`
loop is embedded with explicit fuel: `none` means the fuel ran out before
the loop condition `start < len(text)` failed, so a `some` result is a
proof that the loop terminated within the given number of iterations. -/

/-- Python slice `text[start:stop]` over the code points of the string
(both ends clamped to the text length). -/
def pySlice (chars : List Char) (start stop : Nat) : String :=
  String.mk ((chars.drop start).take (stop - start))

/-- The `while start < len(text)` loop body of `chunk_text`: emit
`text[start : start+chunk_size]`, then advance `start` by
`chunk_size - chunk_overlap`. -/
def chunkLoop (chars : List Char) (chunk_size chunk_overlap : Nat) :
    Nat → Nat → Option (List String)
  | 0, _ => none
  | fuel + 1, start =>
    if start < chars.length then
      match chunkLoop chars chunk_size chunk_overlap fuel
          (start + (chunk_size - chunk_overlap)) with
      | none => none
      | some rest => some (pySlice chars start (start + chunk_size) :: rest)
    else
      some []

/-- `chunk_text(text, chunk_size, chunk_overlap)` from
src/document_processing/chunker.py: empty text gives `[]`, text no longer
than `chunk_size` gives `[text]`, otherwise the sliding-window loop runs
(fuel `text.length + 1` iterations, enough whenever the window advances). -/
def chunk_text (text : String) (chunk_size chunk_overlap : Nat) :
    Option (List String) :=
  if text = "" then some []
  else if text.length ≤ chunk_size then some [text]
  else chunkLoop text.data chunk_size chunk_overlap (text.length + 1) 0

/-- The start offsets named by the spec: `start = 0`, advancing by `step`,
taken for every `start < len`. -/
def specStarts (len step : Nat) : Nat → Nat → List Nat
  | 0, _ => []
  | fuel + 1, start =>
    if start < len then start :: specStarts len step fuel (start + step) else []

lemma chunkLoop_eq_specStarts (chars : List Char) (cs co : Nat)
    (hco : co < cs) :
    ∀ fuel start, chars.length - start < fuel →
      chunkLoop chars cs co fuel start =
        some ((specStarts chars.length (cs - co) fuel start).map
          (fun s => pySlice chars s (s + cs))) := by
  intro fuel
  induction fuel with
  | zero => intro start h; omega
  | succ fuel ih =>
    intro start h
    by_cases hs : start < chars.length
    · have hrec := ih (start + (cs - co)) (by omega)
      simp only [chunkLoop, specStarts, hs, if_pos, hrec, List.map_cons]
    · simp only [chunkLoop, specStarts, hs, if_neg, List.map_nil]
      tauto

lemma specStarts_mem (len d : Nat) (hd : 0 < d) :
    ∀ fuel start, len - start < fuel →
      ∀ s, s ∈ specStarts len d fuel start ↔ ((∃ k, s = start + k * d) ∧ s < len) := by
  intro fuel
  induction fuel with
  | zero => intro start h; omega
  | succ fuel ih =>
    intro start h s
    by_cases hs : start < len
    · have hrec := ih (start + d) (by omega) s
      simp only [specStarts, hs, if_pos, List.mem_cons, hrec]
      constructor
      · rintro (rfl | ⟨⟨k, rfl⟩, hlt⟩)
        · exact ⟨⟨0, by omega⟩, hs⟩
        · exact ⟨⟨k + 1, by ring⟩, hlt⟩
      · rintro ⟨⟨k, rfl⟩, hlt⟩
        cases k with
        | zero => left; omega
        | succ k => right; exact ⟨⟨k, by ring⟩, hlt⟩
    · simp only [specStarts, if_neg hs, List.not_mem_nil, false_iff]
      rintro ⟨⟨k, rfl⟩, hlt⟩
      omega

lemma specStarts_all_ge (len d : Nat) :
    ∀ fuel start, ∀ s ∈ specStarts len d fuel start, start ≤ s := by
  intro fuel
  induction fuel with
  | zero => intro start s hs; simp [specStarts] at hs
  | succ fuel ih =>
    intro start s hs
    by_cases h : start < len
    · simp only [specStarts, h, if_pos, List.mem_cons] at hs
      rcases hs with rfl | hs
      · exact Nat.le_refl _
      · have := ih (start + d) s hs; omega
    · simp [specStarts, h] at hs

lemma specStarts_sorted (len d : Nat) (hd : 0 < d) :
    ∀ fuel start, List.Sorted (· < ·) (specStarts len d fuel start) := by
  intro fuel
  induction fuel with
  | zero => intro start; simp [specStarts]
  | succ fuel ih =>
    intro start
    by_cases h : start < len
    · simp only [specStarts, h, if_pos]
      refine List.sorted_cons.mpr ⟨?_, ih (start + d)⟩
      intro s hs
      have := specStarts_all_ge len d fuel (start + d) s hs
      omega
    · simp [specStarts, h]

lemma string_ne_empty_of_length_pos {text : String} (h : 0 < text.length) :
    text ≠ "" := by
  intro hrfl
  rw [hrfl] at h
  simp at h

/-- C1: for every `text`, `chunk_size > 0` and `0 ≤ chunk_overlap < chunk_size`,
`chunk_text` returns `[]` on empty text; `[text]` when the (nonempty) text has
length at most `chunk_size`; otherwise exactly, in left-to-right order, the
slices `text[start : start+chunk_size]` (end clamped to the text length) for
`start = 0` advancing by `chunk_size - chunk_overlap`, taken for every start
below the text length: the start offsets are exactly the multiples of the step
below the length, listed in strictly increasing order. -/
theorem chunk_text_correct (text : String) (chunk_size chunk_overlap : Nat)
    (hcs : 0 < chunk_size) (hco : chunk_overlap < chunk_size) :
    (text = "" → chunk_text text chunk_size chunk_overlap = some []) ∧
    (text ≠ "" → text.length ≤ chunk_size →
      chunk_text text chunk_size chunk_overlap = some [text]) ∧
    (chunk_size < text.length →
      chunk_text text chunk_size chunk_overlap =
        some ((specStarts text.length (chunk_size - chunk_overlap)
            (text.length + 1) 0).map
          (fun s => pySlice text.data s (s + chunk_size))) ∧
      (∀ s, s ∈ specStarts text.length (chunk_size - chunk_overlap)
          (text.length + 1) 0 ↔
        ((chunk_size - chunk_overlap) ∣ s ∧ s < text.length)) ∧
      List.Sorted (· < ·)
        (specStarts text.length (chunk_size - chunk_overlap)
          (text.length + 1) 0)) := by
  have hstep : 0 < chunk_size - chunk_overlap := by omega
  refine ⟨?_, ?_, ?_⟩
  · intro hrfl
    simp [chunk_text, hrfl]
  · intro hne hle
    simp [chunk_text, hne, hle]
  · intro hgt
    have hne : text ≠ "" := string_ne_empty_of_length_pos (by omega)
    have hdl : text.data.length = text.length := rfl
    refine ⟨?_, ?_, specStarts_sorted _ _ hstep _ _⟩
    · have hloop := chunkLoop_eq_specStarts text.data chunk_size chunk_overlap
        hco (text.length + 1) 0 (by omega)
      simp only [chunk_text, if_neg hne, if_neg (by omega : ¬ text.length ≤ chunk_size)]
      rw [hloop, hdl]
    · intro s
      rw [specStarts_mem text.length (chunk_size - chunk_overlap) hstep
        (text.length + 1) 0 (by omega) s]
      constructor
      · rintro ⟨⟨k, rfl⟩, hlt⟩
        exact ⟨⟨k, by ring⟩, hlt⟩
      · rintro ⟨⟨k, rfl⟩, hlt⟩
        exact ⟨⟨k, by ring⟩, hlt⟩

/-- C1 (witness): the correctness theorem applied to the concrete input
`"ABCDEFGHIJ"` with `chunk_size = 4`, `chunk_overlap = 1`. -/
theorem chunk_text_correct_witness :
    (0 < 4 ∧ 1 < 4) ∧
    ((("ABCDEFGHIJ" : String) = "" → chunk_text "ABCDEFGHIJ" 4 1 = some []) ∧
     (("ABCDEFGHIJ" : String) ≠ "" → ("ABCDEFGHIJ" : String).length ≤ 4 →
       chunk_text "ABCDEFGHIJ" 4 1 = some ["ABCDEFGHIJ"]) ∧
     (4 < ("ABCDEFGHIJ" : String).length →
       chunk_text "ABCDEFGHIJ" 4 1 =
         some ((specStarts ("ABCDEFGHIJ" : String).length (4 - 1)
             (("ABCDEFGHIJ" : String).length + 1) 0).map
           (fun s => pySlice ("ABCDEFGHIJ" : String).data s (s + 4))) ∧
       (∀ s, s ∈ specStarts ("ABCDEFGHIJ" : String).length (4 - 1)
           (("ABCDEFGHIJ" : String).length + 1) 0 ↔
         ((4 - 1) ∣ s ∧ s < ("ABCDEFGHIJ" : String).length)) ∧
       List.Sorted (· < ·)
         (specStarts ("ABCDEFGHIJ" : String).length (4 - 1)
           (("ABCDEFGHIJ" : String).length + 1) 0))) :=
  ⟨by decide, chunk_text_correct "ABCDEFGHIJ" 4 1 (by decide) (by decide)⟩

/-- C2 (counterexample): `chunk_text "ABCDEFGHIJ" 4 1` does not return the
three chunks claimed by the spec — the loop also runs at `start = 9 < 10` and
emits a fourth chunk `"J"`. -/
theorem chunk_text_example_not_three :
    chunk_text "ABCDEFGHIJ" 4 1 ≠ some ["ABCD", "DEFG", "GHIJ"] := by decide

/-- C2 (amended): `chunk_text "ABCDEFGHIJ" 4 1` returns exactly the four
chunks `["ABCD", "DEFG", "GHIJ", "J"]` (starts 0, 3, 6, 9). -/
theorem chunk_text_example :
    chunk_text "ABCDEFGHIJ" 4 1 = some ["ABCD", "DEFG", "GHIJ", "J"] := by
  decide

/-- C9: for every `text`, `chunk_size > 0` and `0 ≤ chunk_overlap <
chunk_size`, the chunking loop terminates: each iteration advances the cursor
by `chunk_size - chunk_overlap ≥ 1`, so within `text.length + 1` iterations
the condition `start < text.length` fails and `chunk_text` yields a result
(never the fuel-exhaustion value `none`). -/
theorem chunk_text_terminates (text : String) (chunk_size chunk_overlap : Nat)
    (hcs : 0 < chunk_size) (hco : chunk_overlap < chunk_size) :
    ∃ chunks, chunk_text text chunk_size chunk_overlap = some chunks := by
  by_cases hempty : text = ""
  · exact ⟨[], by simp [chunk_text, hempty]⟩
  · by_cases hle : text.length ≤ chunk_size
    · exact ⟨[text], by simp [chunk_text, hempty, hle]⟩
    · have hdl : text.data.length = text.length := rfl
      have hloop := chunkLoop_eq_specStarts text.data chunk_size chunk_overlap
        hco (text.length + 1) 0 (by omega)
      exact ⟨_, by simp only [chunk_text, if_neg hempty, if_neg hle]; exact hloop⟩

/-- C9 (witness): termination at the concrete input `"hello"` with
`chunk_size = 2`, `chunk_overlap = 1`. -/
theorem chunk_text_terminates_witness :
    0 < 2 ∧ 1 < 2 ∧ ∃ chunks, chunk_text "hello" 2 1 = some chunks :=
  ⟨by decide, by decide, chunk_text_terminates "hello" 2 1 (by decide) (by decide)⟩

/-! ### Vector store (src/vector_store/weaviate_store.py)

The store's collection is modelled as the list of its records, in insertion
order; the remote Weaviate service's nearest-neighbour query is modelled
from the spec's contract for it (distance-ascending order, at most `top_k`
objects), parameterised by the distance function it computes. -/

/-- A stored record: the properties inserted by `add_documents` plus the
supplied vector. -/
structure Record where
  content : String
  source : String
  chunk_index : Nat
  vector : List ℚ
  deriving DecidableEq

/-- A per-item metadata dict: `source` and `chunk_index` keys, each possibly
absent (`meta.get` falls back to a default). -/
structure Meta where
  source : Option String := none
  chunk_index : Option Nat := none
  deriving DecidableEq

/-- The errors `add_documents` can raise: the texts/embeddings length
mismatch `ValueError` (carrying both lengths) and the `IndexError` from
`metadata[i]` when the metadata list is too short. -/
inductive StoreError where
  | validation (nTexts nEmbeddings : Nat)
  | indexError
  deriving DecidableEq

/-- `metadata[i] if metadata else {}`: Python treats both `None` and the
empty list as falsy, giving the empty dict; a non-empty list is indexed and
raises `IndexError` when `i` is out of range. -/
def metaAt (metadata : Option (List Meta)) (i : Nat) : Except StoreError Meta :=
  match metadata with
  | none => .ok {}
  | some ms =>
    if ms.isEmpty then .ok {}
    else
      match ms[i]? with
      | some m => .ok m
      | none => .error .indexError

/-- The record built for item `i`: `content`, `source` (default
`"unknown"`), `chunk_index` (default `i`) and the supplied vector. -/
def mkRecord (text : String) (embedding : List ℚ) (m : Meta) (i : Nat) :
    Record :=
  { content := text
    source := m.source.getD "unknown"
    chunk_index := m.chunk_index.getD i
    vector := embedding }

/-- The insertion loop of `add_documents` over `enumerate(zip(texts,
embeddings))`, threading the store state; assigned ids are modelled by the
insertion position.  Returns the store after the call together with the
outcome (the ids, or the exception that escaped the loop). -/
def addLoop (metadata : Option (List Meta)) :
    List (String × List ℚ) → Nat → List Record → List String →
      List Record × Except StoreError (List String)
  | [], _, store, ids => (store, .ok ids)
  | (t, e) :: rest, i, store, ids =>
    match metaAt metadata i with
    | .error err => (store, .error err)
    | .ok m => addLoop metadata rest (i + 1) (store ++ [mkRecord t e m i])
        (ids ++ [toString i])

/-- `WeaviateStore.add_documents(texts, embeddings, metadata)` acting on a
store state: validates the lengths first (raising before any insertion),
then inserts one record per (text, embedding) pair in input order. -/
def add_documents (texts : List String) (embeddings : List (List ℚ))
    (metadata : Option (List Meta)) (store : List Record) :
    List Record × Except StoreError (List String) :=
  if texts.length ≠ embeddings.length then
    (store, .error (.validation texts.length embeddings.length))
  else
    addLoop metadata (texts.zip embeddings) 0 store []

/-- A formatted search result: the record's properties plus the similarity
score `1 - distance`. -/
structure SearchResult where
  content : String
  source : String
  chunk_index : Nat
  score : ℚ
  deriving DecidableEq

/-- Modelled from the spec: the external Weaviate `near_vector` query, which
is not part of this repository.  Per the spec's contract it computes a
distance for every stored object and returns at most `top_k` objects ordered
by ascending distance (ties kept in store order); the distance function the
remote service uses is a parameter. -/
def near_vector (dist : List ℚ → List ℚ → ℚ) (records : List Record)
    (query_embedding : List ℚ) (top_k : Nat) : List (Record × ℚ) :=
  ((records.map (fun r => (r, dist query_embedding r.vector))).insertionSort
    (fun a b => a.2 ≤ b.2)).take top_k

/-- `WeaviateStore.search(query_embedding, top_k)`: run the near-vector
query and format each returned object, with `score = 1 - distance`. -/
def search (dist : List ℚ → List ℚ → ℚ) (records : List Record)
    (query_embedding : List ℚ) (top_k : Nat) : List SearchResult :=
  (near_vector dist records query_embedding top_k).map
    (fun p =>
      { content := p.1.content
        source := p.1.source
        chunk_index := p.1.chunk_index
        score := 1 - p.2 })

/-- C3: when the texts and embeddings lists differ in length,
`add_documents` fails with the validation error carrying both lengths and
leaves the store exactly as it was — no record is inserted. -/
theorem add_documents_validation (texts : List String)
    (embeddings : List (List ℚ)) (metadata : Option (List Meta))
    (store : List Record) (h : texts.length ≠ embeddings.length) :
    add_documents texts embeddings metadata store =
      (store, .error (.validation texts.length embeddings.length)) := by
  simp [add_documents, h]

/-- C3 (witness): one text and no embeddings — the call fails with the
validation error and the (empty) store is unchanged. -/
theorem add_documents_validation_witness :
    (["a"] : List String).length ≠ ([] : List (List ℚ)).length ∧
    add_documents ["a"] [] none [] =
      ([], .error (.validation (["a"] : List String).length
        ([] : List (List ℚ)).length)) :=
  ⟨by decide, add_documents_validation ["a"] [] none [] (by decide)⟩

lemma addLoop_short_meta (ms : List Meta) (hne : ms ≠ []) :
    ∀ (pairs : List (String × List ℚ)) (i : Nat) (store : List Record)
      (ids : List String), ms.length < i + pairs.length → i ≤ ms.length →
      ∃ inserted : List Record, inserted.length = ms.length - i ∧
        addLoop (some ms) pairs i store ids =
          (store ++ inserted, .error .indexError) := by
  have hms : ms.isEmpty = false := by
    cases ms
    · exact absurd rfl hne
    · rfl
  intro pairs
  induction pairs with
  | nil =>
    intro i store ids h1 h2
    simp only [List.length_nil] at h1
    omega
  | cons p rest ih =>
    intro i store ids h1 h2
    obtain ⟨t, e⟩ := p
    by_cases hi : i < ms.length
    · have hmeta : metaAt (some ms) i = .ok ms[i] := by
        simp [metaAt, hms, List.getElem?_eq_getElem hi]
      obtain ⟨inserted, hlen, heq⟩ :=
        ih (i + 1) (store ++ [mkRecord t e ms[i] i]) (ids ++ [toString i])
          (by simp only [List.length_cons] at h1; omega) (by omega)
      refine ⟨mkRecord t e ms[i] i :: inserted, by simp [hlen]; omega, ?_⟩
      simp only [addLoop, hmeta]
      rw [heq]
      simp
    · have hieq : i = ms.length := by omega
      have hmeta : metaAt (some ms) i = .error .indexError := by
        simp [metaAt, hms, List.getElem?_eq_none (by omega : ms.length ≤ i)]
      refine ⟨[], by simp only [List.length_nil]; omega, ?_⟩
      simp only [addLoop, hmeta]
      simp

/-- C10: with equal-length texts and embeddings and a non-empty metadata
list shorter than the texts, `add_documents` does not fall back to per-item
defaults for the missing tail: it stops with the index error after having
inserted exactly one record per metadata entry, and those insertions remain
in the store (no rollback). -/
theorem add_documents_short_metadata (texts : List String)
    (embeddings : List (List ℚ)) (ms : List Meta) (store : List Record)
    (hlen : texts.length = embeddings.length) (hne : ms ≠ [])
    (hshort : ms.length < texts.length) :
    ∃ inserted : List Record, inserted.length = ms.length ∧
      add_documents texts embeddings (some ms) store =
        (store ++ inserted, .error .indexError) := by
  have hz : (texts.zip embeddings).length = texts.length := by
    simp [List.length_zip, hlen]
  obtain ⟨inserted, h1, h2⟩ :=
    addLoop_short_meta ms hne (texts.zip embeddings) 0 store [] (by omega)
      (by omega)
  have hcond : ¬ (texts.length ≠ embeddings.length) := by omega
  refine ⟨inserted, by omega, ?_⟩
  simp only [add_documents, if_neg hcond]
  exact h2

/-- C10 (witness): two texts and embeddings with a single metadata entry —
one record is inserted, then the index error escapes. -/
theorem add_documents_short_metadata_witness :
    (["a", "b"] : List String).length = ([[1], [2]] : List (List ℚ)).length ∧
    ([{}] : List Meta) ≠ [] ∧
    ([{}] : List Meta).length < (["a", "b"] : List String).length ∧
    ∃ inserted : List Record, inserted.length = ([{}] : List Meta).length ∧
      add_documents ["a", "b"] [[1], [2]] (some [{}]) [] =
        ([] ++ inserted, .error .indexError) :=
  ⟨by decide, by decide, by decide,
    add_documents_short_metadata ["a", "b"] [[1], [2]] [{}] []
      (by decide) (by decide) (by decide)⟩

/-- C4: `search` returns at most `top_k` results; the scores (each equal to
`1 - distance` of a stored record) are in descending order, so a result with
smaller distance precedes one with larger distance; every result is a
formatted stored record; and on an empty collection the result is the empty
list for every `top_k` — never an error. -/
theorem search_spec (dist : List ℚ → List ℚ → ℚ) (records : List Record)
    (q : List ℚ) (top_k : Nat) :
    (search dist records q top_k).length ≤ top_k ∧
    List.Sorted (· ≥ ·) ((search dist records q top_k).map SearchResult.score) ∧
    (∀ res ∈ search dist records q top_k, ∃ rec ∈ records,
      res.content = rec.content ∧ res.source = rec.source ∧
      res.chunk_index = rec.chunk_index ∧ res.score = 1 - dist q rec.vector) ∧
    (∀ k, search dist [] q k = []) := by
  haveI instTot : IsTotal (Record × ℚ) (fun a b => a.2 ≤ b.2) :=
    ⟨fun a b => le_total a.2 b.2⟩
  haveI instTrans : IsTrans (Record × ℚ) (fun a b => a.2 ≤ b.2) :=
    ⟨fun a b c hab hbc => le_trans hab hbc⟩
  refine ⟨?_, ?_, ?_, fun k => by simp [search, near_vector]⟩
  · simp only [search, near_vector, List.length_map, List.length_take]
    exact min_le_left _ _
  · have hsorted : List.Sorted (fun a b : Record × ℚ => a.2 ≤ b.2)
        ((records.map (fun r => (r, dist q r.vector))).insertionSort
          (fun a b => a.2 ≤ b.2)) :=
      List.sorted_insertionSort _ _
    have htake := hsorted.sublist (List.take_sublist top_k _)
    simp only [search, near_vector, List.map_map]
    rw [List.Sorted, List.pairwise_map]
    exact htake.imp (fun hab => by
      simp only [Function.comp]
      exact sub_le_sub_left hab 1)
  · intro res hres
    simp only [search, List.mem_map] at hres
    obtain ⟨p, hp, rfl⟩ := hres
    have hp' : p ∈ (records.map (fun r => (r, dist q r.vector))).insertionSort
        (fun a b => a.2 ≤ b.2) := List.mem_of_mem_take hp
    rw [List.mem_insertionSort] at hp'
    simp only [List.mem_map] at hp'
    obtain ⟨rec, hrec, rfl⟩ := hp'
    exact ⟨rec, hrec, rfl, rfl, rfl, rfl⟩

/-! ### Collection provisioning retry
(src/vector_store/weaviate_store.py, `_create_collection_with_retry`)

The loop `for attempt in range(max_retries)` tries `_create_collection()`;
on failure it records the error, sleeps `2 ** attempt` time units and goes
on; when the range is exhausted it raises `ConnectionError` carrying
`max_retries` and the last underlying failure.  The trace records the
attempt indices made, the sleeps performed (in order), and the outcome. -/

/-- What one run of the provisioning retry loop did. -/
structure RetryTrace where
  attempts : List Nat
  waits : List Nat
  outcome : Except (Nat × Option String) Unit

/-- The retry loop over the remaining attempt indices, threading the last
error seen.  `createCollection i` is the outcome of `_create_collection()`
on attempt `i` (an external call that may fail while the service starts). -/
def retryGo (createCollection : Nat → Except String Unit) (max_retries : Nat) :
    List Nat → Option String → RetryTrace
  | [], lastError => ⟨[], [], .error (max_retries, lastError)⟩
  | attempt :: rest, _ =>
    match createCollection attempt with
    | .ok _ => ⟨[attempt], [], .ok ()⟩
    | .error e =>
      let t := retryGo createCollection max_retries rest (some e)
      ⟨attempt :: t.attempts, 2 ^ attempt :: t.waits, t.outcome⟩

/-- `WeaviateStore._create_collection_with_retry()` with `max_retries`
attempts, starting with no recorded error. -/
def create_collection_with_retry (createCollection : Nat → Except String Unit)
    (max_retries : Nat) : RetryTrace :=
  retryGo createCollection max_retries (List.range max_retries) none

/-! ### Pipeline orchestrator (src/rag/pipeline.py)

The external capabilities (query embedding, the LLM completion, per-document
ingestion for the batch loop) are parameters; the vector store state is the
record list defined above. -/

/-- The fixed fallback answer of `RAGPipeline.query` when retrieval finds
nothing. -/
def fallbackMessage : String :=
  "I couldn't find any relevant information to answer your question."

/-- `RAGPipeline.retrieve(query, top_k)`: embed the question with the
query-variant of the embedding capability, then search the vector store. -/
def retrieve (embedQuery : String → List ℚ) (dist : List ℚ → List ℚ → ℚ)
    (records : List Record) (query : String) (top_k : Nat) :
    List SearchResult :=
  search dist records (embedQuery query) top_k

/-- The context block of the prompt: each chunk rendered as
`[Source: {source}]\n{content}`, joined with the fixed separator. -/
def contextText (context_chunks : List SearchResult) : String :=
  String.intercalate "\n\n---\n\n"
    (context_chunks.map (fun chunk =>
      "[Source: " ++ chunk.source ++ "]\n" ++ chunk.content))

/-- The assembled single-turn prompt of `RAGPipeline.generate_answer`. -/
def buildPrompt (query : String) (context_chunks : List SearchResult) :
    String :=
  "You are a helpful assistant that answers questions based on the provided context.\n\nCONTEXT:\n"
    ++ contextText context_chunks
    ++ "\n\nQUESTION:\n" ++ query
    ++ "\n\nINSTRUCTIONS:\n1. Answer based ONLY on the context provided above.\n2. If the context doesn't contain enough information, say so.\n3. Be concise but thorough.\n4. Cite which source(s) you used when relevant.\n\nANSWER:"

/-- `RAGPipeline.generate_answer(query, context_chunks)`: send the assembled
prompt to the generation capability `llm` and return its text verbatim. -/
def generate_answer (llm : String → String) (query : String)
    (context_chunks : List SearchResult) : String :=
  llm (buildPrompt query context_chunks)

/-- `RAGPipeline.query(question, top_k)`.  The second component counts how
often the generation capability was invoked during the call. -/
def pipelineQuery (embedQuery : String → List ℚ)
    (dist : List ℚ → List ℚ → ℚ) (records : List Record)
    (llm : String → String) (question : String) (top_k : Nat) :
    String × Nat :=
  let results := retrieve embedQuery dist records question top_k
  if results.isEmpty then (fallbackMessage, 0)
  else (generate_answer llm question results, 1)

/-- `RAGPipeline.ingest_multiple(file_paths)`: per path, try
`ingest_document` (an operation that may fail for reasons of its own —
loading, embedding or storage); a failure is caught and skipped, a success
adds its chunk count to the running total. -/
def ingest_multiple (ingestDocument : String → Except String Nat)
    (file_paths : List String) : Nat :=
  file_paths.foldl
    (fun total path =>
      match ingestDocument path with
      | .ok chunks => total + chunks
      | .error _ => total)
    0

/-- Python's `str.strip()`: remove whitespace from both ends. -/
def pyStrip (s : String) : String :=
  String.mk
    (((s.data.dropWhile Char.isWhitespace).reverse.dropWhile
      Char.isWhitespace).reverse)

/-- The `/api/query` route of the HTTP layer (src/app.py): a missing
question gives a 400 error, a question that strips to the empty string
gives a 400 error, and only otherwise is the pipeline invoked with the
stripped question. -/
def api_query (runPipeline : String → String) (body : Option String) :
    Except (String × Nat) String :=
  match body with
  | none => .error ("No question provided", 400)
  | some raw =>
    let question := pyStrip raw
    if question = "" then .error ("Question cannot be empty", 400)
    else .ok (runPipeline question)

lemma retryGo_length (c : Nat → Except String Unit) (mr : Nat) :
    ∀ (l : List Nat) (le : Option String),
      (retryGo c mr l le).attempts.length ≤ l.length := by
  intro l
  induction l with
  | nil => intro le; simp [retryGo]
  | cons a rest ih =>
    intro le
    cases h : c a with
    | ok u => simp [retryGo, h]
    | error e =>
      simp only [retryGo, h, List.length_cons]
      exact Nat.succ_le_succ (ih (some e))

lemma retryGo_all_fail (c : Nat → Except String Unit) (mr : Nat) :
    ∀ (l : List Nat) (le : Option String),
      (∀ i ∈ l, ∃ e, c i = .error e) →
      (retryGo c mr l le).attempts = l ∧
      (retryGo c mr l le).waits = l.map (fun n => 2 ^ n) ∧
      (l = [] → (retryGo c mr l le).outcome = .error (mr, le)) ∧
      (∀ a e, l.getLast? = some a → c a = .error e →
        (retryGo c mr l le).outcome = .error (mr, some e)) := by
  intro l
  induction l with
  | nil =>
    intro le hfail
    refine ⟨rfl, rfl, fun _ => rfl, ?_⟩
    intro a e ha
    simp at ha
  | cons x rest ih =>
    intro le hfail
    obtain ⟨e0, he0⟩ := hfail x (List.mem_cons_self x rest)
    obtain ⟨ha, hw, hfirst, hlast⟩ :=
      ih (some e0) (fun i hi => hfail i (List.mem_cons_of_mem x hi))
    have hunfold : retryGo c mr (x :: rest) le =
        ⟨x :: (retryGo c mr rest (some e0)).attempts,
         2 ^ x :: (retryGo c mr rest (some e0)).waits,
         (retryGo c mr rest (some e0)).outcome⟩ := by
      simp [retryGo, he0]
    rw [hunfold]
    refine ⟨?_, ?_, ?_, ?_⟩
    · simp [ha]
    · simp [hw]
    · intro hcon
      exact absurd hcon (by simp)
    · intro a e hga hce
      cases rest with
      | nil =>
        simp only [List.getLast?_singleton, Option.some.injEq] at hga
        subst hga
        rw [he0] at hce
        cases hce
        exact hfirst rfl
      | cons y ys =>
        rw [List.getLast?_cons_cons] at hga
        exact hlast a e hga hce

lemma getLast?_range (n : Nat) (h : 0 < n) :
    (List.range n).getLast? = some (n - 1) := by
  obtain ⟨k, rfl⟩ : ∃ k, n = k + 1 := ⟨n - 1, by omega⟩
  rw [List.range_succ, List.getLast?_concat]
  simp

/-- C7: collection provisioning makes at most `max_retries` attempts; when
every attempt fails, it makes exactly the attempts `0, …, max_retries - 1`
(no further ones), waits exactly `2 ^ n` time units after failed attempt
`n`, and raises the connection-establishment error carrying `max_retries`
and the last underlying failure. -/
theorem retry_spec (createCollection : Nat → Except String Unit)
    (max_retries : Nat) (hpos : 0 < max_retries)
    (hfail : ∀ i, i < max_retries → ∃ e, createCollection i = .error e) :
    (∀ c' : Nat → Except String Unit,
      (create_collection_with_retry c' max_retries).attempts.length ≤
        max_retries) ∧
    (create_collection_with_retry createCollection max_retries).attempts =
      List.range max_retries ∧
    (create_collection_with_retry createCollection max_retries).waits =
      (List.range max_retries).map (fun n => 2 ^ n) ∧
    ∃ e, createCollection (max_retries - 1) = .error e ∧
      (create_collection_with_retry createCollection max_retries).outcome =
        .error (max_retries, some e) := by
  have hof : ∀ i ∈ List.range max_retries, ∃ e, createCollection i = .error e :=
    fun i hi => hfail i (List.mem_range.mp hi)
  obtain ⟨hatt, hwaits, _, hlast⟩ :=
    retryGo_all_fail createCollection max_retries (List.range max_retries)
      none hof
  refine ⟨?_, hatt, hwaits, ?_⟩
  · intro c'
    have := retryGo_length c' max_retries (List.range max_retries) none
    simpa [create_collection_with_retry, List.length_range] using this
  · obtain ⟨e, he⟩ := hfail (max_retries - 1) (by omega)
    exact ⟨e, he, hlast (max_retries - 1) e (getLast?_range _ hpos) he⟩

/-- C7 (witness): two attempts, both failing with "down": attempts `[0, 1]`,
waits `[1, 2]`, and the connection error carries the last failure. -/
theorem retry_spec_witness :
    0 < 2 ∧
    (∀ i, i < 2 →
      ∃ e, (fun _ : Nat => (Except.error "down" : Except String Unit)) i =
        .error e) ∧
    ((∀ c' : Nat → Except String Unit,
        (create_collection_with_retry c' 2).attempts.length ≤ 2) ∧
     (create_collection_with_retry
        (fun _ => Except.error "down") 2).attempts = List.range 2 ∧
     (create_collection_with_retry
        (fun _ => Except.error "down") 2).waits =
       (List.range 2).map (fun n => 2 ^ n) ∧
     ∃ e, (fun _ : Nat => (Except.error "down" : Except String Unit)) (2 - 1) =
         .error e ∧
       (create_collection_with_retry
          (fun _ => Except.error "down") 2).outcome = .error (2, some e)) :=
  ⟨by decide, fun i _ => ⟨"down", rfl⟩,
    retry_spec (fun _ => Except.error "down") 2 (by decide)
      (fun i _ => ⟨"down", rfl⟩)⟩

/-- C5: whenever retrieval returns no results, `query` returns the fixed
fallback message and the generation capability is invoked zero times. -/
theorem query_empty_retrieval_fallback (embedQuery : String → List ℚ)
    (dist : List ℚ → List ℚ → ℚ) (records : List Record)
    (llm : String → String) (question : String) (top_k : Nat)
    (h : retrieve embedQuery dist records question top_k = []) :
    pipelineQuery embedQuery dist records llm question top_k =
      (fallbackMessage, 0) := by
  simp [pipelineQuery, h]

/-- C5 (witness): on an empty collection retrieval finds nothing and `query`
answers with the fallback message, never calling the LLM. -/
theorem query_empty_retrieval_fallback_witness :
    retrieve (fun _ => []) (fun _ _ => 0) [] "q" 5 = [] ∧
    pipelineQuery (fun _ => []) (fun _ _ => 0) [] (fun _ => "answer") "q" 5 =
      (fallbackMessage, 0) :=
  ⟨rfl,
    query_empty_retrieval_fallback (fun _ => []) (fun _ _ => 0) []
      (fun _ => "answer") "q" 5 rfl⟩

/-- C6: `ingest_multiple` processes the paths in input order, catches and
skips every per-path failure (it is a total function — it never raises),
and returns exactly the sum of the chunk counts of the paths whose
ingestion succeeded. -/
theorem ingest_multiple_sum (ingestDocument : String → Except String Nat)
    (file_paths : List String) :
    ingest_multiple ingestDocument file_paths =
      (file_paths.filterMap (fun p => (ingestDocument p).toOption)).sum := by
  have key : ∀ (ps : List String) (acc : Nat),
      ps.foldl
        (fun total path =>
          match ingestDocument path with
          | .ok chunks => total + chunks
          | .error _ => total)
        acc =
      acc + (ps.filterMap (fun p => (ingestDocument p).toOption)).sum := by
    intro ps
    induction ps with
    | nil => intro acc; simp
    | cons p rest ih =>
      intro acc
      rw [List.foldl_cons]
      cases hf : ingestDocument p with
      | ok n =>
        simp only [hf]
        rw [ih]
        simp [List.filterMap_cons, hf, Except.toOption]
        show (acc + n) + _ = acc + (n + _)
        omega
      | error e =>
        simp only [hf]
        rw [ih]
        simp [List.filterMap_cons, hf, Except.toOption]
  simpa [ingest_multiple] using key file_paths 0

/-- C8 (counterexample): with an empty question the pipeline does not raise
a validation error: `retrieve("", 5)` proceeds to embed and search,
returning an ordinary result, and `query("", 5)` goes on to invoke the
generation capability once. -/
theorem empty_question_counterexample :
    retrieve (fun _ => [0]) (fun _ _ => 0) [⟨"doc", "src", 0, [1]⟩] "" 5 =
      [⟨"doc", "src", 0, 1⟩] ∧
    pipelineQuery (fun _ => [0]) (fun _ _ => 0) [⟨"doc", "src", 0, [1]⟩]
      (fun _ => "llm answer") "" 5 = ("llm answer", 1) := by
  have h1 : retrieve (fun _ => [0]) (fun _ _ => 0) [⟨"doc", "src", 0, [1]⟩]
      "" 5 = [⟨"doc", "src", 0, 1⟩] := by
    simp [retrieve, search, near_vector, List.take_of_length_le]
  exact ⟨h1, by simp [pipelineQuery, h1, generate_answer]⟩

/-- C8 (amended): the pipeline itself performs no empty-question check —
`retrieve` with the empty question simply embeds it and searches, and
`query` proceeds identically to any other question; the empty-question
rejection lives only in the HTTP layer, whose query route answers 400
"Question cannot be empty" without invoking the pipeline. -/
theorem empty_question_amended :
    (∀ (embedQuery : String → List ℚ) (dist : List ℚ → List ℚ → ℚ)
       (records : List Record) (top_k : Nat),
      retrieve embedQuery dist records "" top_k =
        search dist records (embedQuery "") top_k) ∧
    (∀ (embedQuery : String → List ℚ) (dist : List ℚ → List ℚ → ℚ)
       (records : List Record) (llm : String → String) (top_k : Nat),
      pipelineQuery embedQuery dist records llm "" top_k =
        (if (retrieve embedQuery dist records "" top_k).isEmpty then
          (fallbackMessage, 0)
        else
          (generate_answer llm ""
            (retrieve embedQuery dist records "" top_k), 1))) ∧
    (∀ runPipeline : String → String,
      api_query runPipeline (some "") =
        .error ("Question cannot be empty", 400) ∧
      api_query runPipeline (some "   ") =
        .error ("Question cannot be empty", 400)) :=
  ⟨fun _ _ _ _ => rfl, fun _ _ _ _ _ => rfl, fun _ => ⟨rfl, rfl⟩⟩

end TraditionalRag
